import Mathlib

/-!
Verification development for the Spry text-interpolation subsystem.

The definitions below are a shallow embedding of:
* `src/lib/interpolate/unsafe.ts` — the template scanner (`splitTemplateIntoParts`),
  the compiler (`compile`), the cached interpolator (`interpolate`), the
  higher-level `interpolateUnsafely` entry point and its bound partial helper;
* `src/lib/universal/partial.ts` — `partialContent`, `partialContentCollection`
  (`wildcardCount`, `findInjectableForPath`, `compose`);
* the capture module (`captureFactory`, `typicalOnCapture`);
* a spec-modelled restricted engine (the repository's `lib/interpolate/safe.ts`
  is not under `src/`, only described by the spec and the README).

JavaScript strings are modelled as `List Char` / `String`; JavaScript values
reaching the renderer are modelled by `JsVal`; thrown exceptions are modelled
with `Except`.  Machine-level JS semantics that the claims do not depend on
(numbers, general objects) are kept abstract via `JsVal.other` or oracle
parameters.
-/

namespace Spry

/-! ## Character-level string order

JavaScript's default `Array.prototype.sort` compares strings lexicographically
by code unit.  We model it on `List Char` (code points; identical on the
identifier strings the engine sorts, which are ASCII). -/

def lexLe : List Char → List Char → Bool
  | [], _ => true
  | _ :: _, [] => false
  | a :: as, b :: bs =>
    if a.toNat < b.toNat then true
    else if b.toNat < a.toNat then false
    else lexLe as bs

def strLe (a b : String) : Prop := lexLe a.data b.data = true

instance : DecidableRel strLe := fun a b => by
  unfold strLe; infer_instance

theorem lexLe_total : ∀ a b : List Char, lexLe a b = true ∨ lexLe b a = true := by
  intro a
  induction a with
  | nil => intro b; left; rfl
  | cons c cs ih =>
    intro b
    cases b with
    | nil => right; rfl
    | cons d ds =>
      by_cases h1 : c.toNat < d.toNat
      · left; simp [lexLe, h1]
      · by_cases h2 : d.toNat < c.toNat
        · right; simp [lexLe, h2]
        · rcases ih ds with h | h
          · left; simp [lexLe, h1, h2, h]
          · right; simp [lexLe, h1, h2, h]

theorem lexLe_trans : ∀ a b c : List Char,
    lexLe a b = true → lexLe b c = true → lexLe a c = true := by
  intro a
  induction a with
  | nil => intro b c _ _; rfl
  | cons x xs ih =>
    intro b c hab hbc
    cases b with
    | nil => simp [lexLe] at hab
    | cons y ys =>
      cases c with
      | nil => simp [lexLe] at hbc
      | cons z zs =>
        simp only [lexLe] at hab hbc ⊢
        by_cases hxy : x.toNat < y.toNat
        · by_cases hyz : y.toNat < z.toNat
          · simp [Nat.lt_trans hxy hyz]
          · by_cases hzy : z.toNat < y.toNat
            · simp [lexLe, hxy] at hab
              simp [hyz, hzy] at hbc
            · have hyzeq : y.toNat = z.toNat := Nat.le_antisymm (Nat.le_of_not_lt hzy) (Nat.le_of_not_lt hyz)
              simp [hyzeq ▸ hxy]
        · by_cases hyx : y.toNat < x.toNat
          · simp [hxy, hyx] at hab
          · have hxyeq : x.toNat = y.toNat := Nat.le_antisymm (Nat.le_of_not_lt hyx) (Nat.le_of_not_lt hxy)
            by_cases hyz : y.toNat < z.toNat
            · simp [hxyeq ▸ hyz]
            · by_cases hzy : z.toNat < y.toNat
              · simp [hyz, hzy] at hbc
              · simp [hxy, hyx] at hab
                simp [hyz, hzy] at hbc
                have h1 : ¬ x.toNat < z.toNat := hxyeq ▸ hyz
                have h2 : ¬ z.toNat < x.toNat := hxyeq ▸ hzy
                simp [h1, h2]
                exact ih ys zs hab hbc

theorem lexLe_antisymm : ∀ a b : List Char,
    lexLe a b = true → lexLe b a = true → a = b := by
  intro a
  induction a with
  | nil =>
    intro b _ hba
    cases b with
    | nil => rfl
    | cons d ds => simp [lexLe] at hba
  | cons c cs ih =>
    intro b hab hba
    cases b with
    | nil => simp [lexLe] at hab
    | cons d ds =>
      simp only [lexLe] at hab hba
      by_cases h1 : c.toNat < d.toNat
      · simp [h1, Nat.lt_asymm h1, Nat.ne_of_lt h1] at hba
      · by_cases h2 : d.toNat < c.toNat
        · simp [h1, h2] at hab
        · have hn : c.toNat = d.toNat :=
            Nat.le_antisymm (Nat.le_of_not_lt h2) (Nat.le_of_not_lt h1)
          have hc : c = d := StrictMono.injective (f := Char.toNat) (fun a b h => h) hn
          simp [h1, h2] at hab hba
          rw [hc, ih ds hab hba]

instance : IsTotal String strLe := ⟨fun a b => lexLe_total a.data b.data⟩

instance : IsTrans String strLe := ⟨fun a b c => lexLe_trans a.data b.data c.data⟩

instance : IsAntisymm String strLe := ⟨by
  intro a b hab hba
  cases a; cases b
  exact congrArg String.mk (lexLe_antisymm _ _ hab hba)⟩

/-! ## Value domain and locals objects -/

/-- Model of the JavaScript values that flow through the renderer.  Values the
claims never inspect (context objects, helper functions, the bound partial
record, …) are represented by `JsVal.other` with a descriptive tag. -/
inductive JsVal where
  | undef
  | nan
  | str (s : String)
  | other (tag : String)
deriving DecidableEq, Repr

/-- Model of a thrown JavaScript exception. -/
structure JsErr where
  msg : String
deriving DecidableEq, Repr

/-- A JavaScript object used as a locals bag: keys in insertion order (no
duplicate keys, as in a JS object), each with a value. -/
abbrev Locals := List (String × JsVal)

/-- Keys of a locals object, in insertion order (JS `Object.keys`). -/
def localKeys (l : Locals) : List String := l.map Prod.fst

/-- Property read `l[k]` on a locals object. -/
def localsGet (l : Locals) (k : String) : Option JsVal := List.lookup k l

/-- Key/value store update with JS-object semantics: an existing key keeps
its position and receives the new value, a fresh key is appended. -/
def assocSet {α : Type} (l : List (String × α)) (k : String) (v : α) :
    List (String × α) :=
  if l.any (fun p => p.1 = k) then
    l.map (fun p => if p.1 = k then (k, v) else p)
  else l ++ [(k, v)]

/-- JS property assignment on a locals object. -/
def jsObjSet (l : Locals) (k : String) (v : JsVal) : Locals := assocSet l k v

/-- Build a JS object literal from a sequence of key/value insertions
(models spreads followed by explicit properties: later entries win). -/
def jsObjOf (entries : List (String × JsVal)) : Locals :=
  entries.foldl (fun acc p => jsObjSet acc p.1 p.2) []

/-! ## Template scanner — `splitTemplateIntoParts` (`src/lib/interpolate/unsafe.ts:101-173`)

The source scans by index `i` over the template with several nested `while`
loops; each loop strictly increases `i`, so every loop runs at most
`len + 1` iterations.  Each loop is embedded as a function that consumes the
remaining characters and spends one unit of fuel per loop iteration; every
wrapper supplies `length + 1` fuel, which the loops can never exhaust.  The
returned `over` flag records the case where `i += 2` on a trailing backslash
pushed `i` one past the end of the string (it changes which characters the
final `src.slice(exprStart, i - 1)` keeps). -/

/-- Result of one scanning loop: the characters it consumed, the rest of the
input, and whether the index overshot the end by one (`i = len + 1`). -/
structure ScanOut where
  consumed : List Char
  rest : List Char
  over : Bool
deriving DecidableEq, Repr

/-- The innermost loop (`unsafe.ts:140-153`): a nested `${` inside a
backtick-quoted segment, tracked with its own brace depth `d`. -/
def skipNestedTplF : Nat → Nat → List Char → ScanOut
  | 0, _, rest => ⟨[], rest, false⟩
  | _ + 1, 0, rest => ⟨[], rest, false⟩
  | _ + 1, _ + 1, [] => ⟨[], [], false⟩
  | fuel + 1, d + 1, '\\' :: rest =>
    match rest with
    | [] => ⟨['\\'], [], true⟩
    | c :: rest' =>
      let o := skipNestedTplF fuel (d + 1) rest'
      ⟨'\\' :: c :: o.consumed, o.rest, o.over⟩
  | fuel + 1, d + 1, '{' :: rest =>
    let o := skipNestedTplF fuel (d + 2) rest
    ⟨'{' :: o.consumed, o.rest, o.over⟩
  | fuel + 1, d + 1, '}' :: rest =>
    let o := skipNestedTplF fuel d rest
    ⟨'}' :: o.consumed, o.rest, o.over⟩
  | fuel + 1, d + 1, c :: rest =>
    let o := skipNestedTplF fuel (d + 1) rest
    ⟨c :: o.consumed, o.rest, o.over⟩

/-- The quoted-string skipping loop (`unsafe.ts:125-157`), entered after the
opening quote `q` has been consumed. -/
def skipQuotedF (q : Char) : Nat → List Char → ScanOut
  | 0, rest => ⟨[], rest, false⟩
  | _ + 1, [] => ⟨[], [], false⟩
  | fuel + 1, '\\' :: rest =>
    match rest with
    | [] => ⟨['\\'], [], true⟩
    | c :: rest' =>
      let o := skipQuotedF q fuel rest'
      ⟨'\\' :: c :: o.consumed, o.rest, o.over⟩
  | fuel + 1, c :: rest =>
    if c = q then ⟨[c], rest, false⟩
    else
      match q, c, rest with
      | '`', '$', '{' :: rest' =>
        let n := skipNestedTplF (rest'.length + 1) 1 rest'
        if n.over then ⟨'$' :: '{' :: n.consumed, n.rest, true⟩
        else
          let o := skipQuotedF '`' fuel n.rest
          ⟨'$' :: '{' :: (n.consumed ++ o.consumed), o.rest, o.over⟩
      | _, _, _ =>
        let o := skipQuotedF q fuel rest
        ⟨c :: o.consumed, o.rest, o.over⟩

/-- The balanced `${ ... }` scanning loop (`unsafe.ts:118-161`), entered with
`depth = 1` right after the opening `${`. -/
def scanExprF : Nat → Nat → List Char → ScanOut
  | 0, _, rest => ⟨[], rest, false⟩
  | _ + 1, 0, rest => ⟨[], rest, false⟩
  | _ + 1, _ + 1, [] => ⟨[], [], false⟩
  | fuel + 1, depth + 1, c :: rest =>
    if c = '{' then
      let o := scanExprF fuel (depth + 2) rest
      ⟨'{' :: o.consumed, o.rest, o.over⟩
    else if c = '}' then
      let o := scanExprF fuel depth rest
      ⟨'}' :: o.consumed, o.rest, o.over⟩
    else if c = '"' ∨ c = '\'' ∨ c = '`' then
      let qo := skipQuotedF c (rest.length + 1) rest
      if qo.over then ⟨c :: qo.consumed, qo.rest, true⟩
      else
        let o := scanExprF fuel (depth + 1) qo.rest
        ⟨c :: (qo.consumed ++ o.consumed), o.rest, o.over⟩
    else
      let o := scanExprF fuel (depth + 1) rest
      ⟨c :: o.consumed, o.rest, o.over⟩

/-- A literal or expression segment of a template (`unsafe.ts:103`). -/
inductive TplPart where
  | lit (value : List Char)
  | expr (value : List Char)
deriving DecidableEq, Repr

/-- The main scanning loop (`unsafe.ts:108-171`).  `acc` is the pending
literal run (`src.slice(litStart, i)`).  The expression kept for an
unterminated span mirrors `src.slice(exprStart, i - 1)`: the final consumed
character is dropped unless the index overshot the end (`over`). -/
def scanTopF : Nat → List Char → List Char → List TplPart
  | 0, _, _ => []
  | _ + 1, acc, [] => if acc.isEmpty then [] else [TplPart.lit acc]
  | fuel + 1, acc, '$' :: '{' :: rest =>
    let pre := if acc.isEmpty then ([] : List TplPart) else [TplPart.lit acc]
    let eo := scanExprF (rest.length + 1) 1 rest
    let e := if eo.over then eo.consumed else eo.consumed.dropLast
    pre ++ TplPart.expr e :: scanTopF fuel [] eo.rest
  | fuel + 1, acc, c :: rest => scanTopF fuel (acc ++ [c]) rest

/-- Split a template-like string into literal and expression segments
(`unsafe.ts:101-173`). -/
def splitTemplateIntoParts (src : String) : List TplPart :=
  scanTopF (src.data.length + 1) [] src.data

/-- Whether the template contains a `${` opener at any position
(the only trigger of the expression branch in `unsafe.ts:109`). -/
def hasInterpSpan : List Char → Bool
  | '$' :: '{' :: _ => true
  | _ :: rest => hasInterpSpan rest
  | [] => false

/-! ## Compiler and cached interpolator (`unsafe.ts:69-265`) -/

/-- JS `Array.prototype.join(sep)`. -/
def joinSep (sep : String) : List String → String
  | [] => ""
  | [s] => s
  | s :: rest => s ++ sep ++ joinSep sep rest

/-- One in-flight partial-expansion frame (`unsafe.ts:227`). -/
structure Frame where
  template : String
deriving DecidableEq, Repr

/-- The bounded diagnostic returned when the recursion stack is too deep
(`unsafe.ts:230-232`). -/
def recursionDiagnostic (limit : Nat) (stack : List Frame) : String :=
  "Recursion stack exceeded max: " ++ toString limit ++ " (" ++
    joinSep " → " (stack.map Frame.template) ++ ")"

/-- First character of `IDENT_RX` (`unsafe.ts:76`): `[A-Za-z_$]`. -/
def isIdentStart (c : Char) : Bool := c.isAlpha || c = '_' || c = '$'

/-- Remaining characters of `IDENT_RX`: `[\w$]`. -/
def isIdentChar (c : Char) : Bool := c.isAlphanum || c = '_' || c = '$'

/-- The identifier test `IDENT_RX.test name` (`unsafe.ts:76-84`). -/
def isValidIdent (s : String) : Bool :=
  match s.data with
  | [] => false
  | c :: rest => isIdentStart c && rest.all isIdentChar

/-- A compiled template: the local keys it binds in its declarations and the
scanned parts its body concatenates (`unsafe.ts:182-212`). -/
structure CompiledTpl where
  keys : List String
  parts : List TplPart
deriving DecidableEq, Repr

/-- The synchronous compile step (`unsafe.ts:182-212`): reject a local key
equal to the context name, reject invalid identifiers, otherwise emit the
renderer for the scanned parts.  Compile errors model the `throw`s. -/
def compile (ctxName : String) (source : String) (keys : List String) :
    Except JsErr CompiledTpl :=
  if keys.contains ctxName then
    .error ⟨"Local key \"" ++ ctxName ++
      "\" conflicts with ctxName. Rename the local or choose a different ctxName."⟩
  else
    match keys.find? (fun k => !isValidIdent k) with
    | some k =>
      .error ⟨"Invalid local key \"" ++ k ++ "\". Use a simple JavaScript identifier."⟩
    | none => .ok ⟨keys, splitTemplateIntoParts source⟩

/-- Scope visible to an expression: maps a name to its bound value, if any. -/
abbrev Env := String → Option JsVal

/-- Oracle for evaluating the JavaScript inside a `${...}` span in a given
scope.  The dynamic `AsyncFunction` body is outside the embedded fragment;
the claims under proof never depend on a specific expression result. -/
abbrev ExprOracle := List Char → Env → Except JsErr JsVal

/-- JS `+` restricted to the values the renderer produces. -/
def jsAdd : JsVal → JsVal → JsVal
  | .str a, .str b => .str (a ++ b)
  | .str a, .undef => .str (a ++ "undefined")
  | .undef, .str b => .str ("undefined" ++ b)
  | .undef, .undef => .nan
  | _, _ => .other "unmodelled addition"

/-- Value of a single part inside the compiled body: literals are string
constants, expressions are evaluated by the oracle. -/
def evalPart (evalExpr : List Char → Except JsErr JsVal) : TplPart → Except JsErr JsVal
  | .lit v => .ok (.str (String.mk v))
  | .expr e => evalExpr e

/-- Left-to-right `+`-fold of the remaining parts (`join(" + ")` in the
emitted body evaluates left to right, aborting at the first throw). -/
def renderPartsAux (evalExpr : List Char → Except JsErr JsVal) :
    Except JsErr JsVal → List TplPart → Except JsErr JsVal
  | .error e, _ => .error e
  | .ok v, [] => .ok v
  | .ok v, p :: ps =>
    match evalPart evalExpr p with
    | .error e => .error e
    | .ok w => renderPartsAux evalExpr (.ok (jsAdd v w)) ps

/-- Value of the emitted `return <parts joined by +>;` — an empty part list
compiles to `return ;`, i.e. `undefined`. -/
def renderParts (evalExpr : List Char → Except JsErr JsVal) :
    List TplPart → Except JsErr JsVal
  | [] => .ok .undef
  | p :: ps => renderPartsAux evalExpr (evalPart evalExpr p) ps

/-- The scope the emitted declarations build (`unsafe.ts:190-192`): each
compiled-in key reads `__l[key]` (missing keys read as `undefined`), and the
context name is bound to the context value.  A key colliding with the context
name is rejected at compile time, so declaration order is immaterial. -/
def envOf (ctxName : String) (ctxVal : JsVal) (keys : List String)
    (locals : Locals) : Env :=
  fun name =>
    if name = ctxName then some ctxVal
    else if keys.contains name then some ((localsGet locals name).getD .undef)
    else none

/-- Execute a compiled renderer against the context and a locals object. -/
def runCompiled (ctxName : String) (evalE : ExprOracle) (ctxVal : JsVal)
    (fn : CompiledTpl) (locals : Locals) : Except JsErr JsVal :=
  renderParts (fun e => evalE e (envOf ctxName ctxVal fn.keys locals)) fn.parts

/-- Configuration of `unsafeInterpolator` (`unsafe.ts:53-74`). -/
structure InterpConfig where
  useCache : Bool := true
  ctxName : String := "ctx"
  recursionLimit : Nat := 9

/-- The cache key: template, context name, sorted-locals signature
(`unsafe.ts:88-95,235-259`; the nested maps are flattened to one lookup). -/
abbrev CacheKey := String × String × String

abbrev Cache := List (CacheKey × CompiledTpl)

/-- The cache signature `keys.slice().sort().join("|")` (`unsafe.ts:236`). -/
def sigOf (keys : List String) : String :=
  joinSep "|" (List.insertionSort strLe keys)

/-- Body of `interpolate` after the recursion guard (`unsafe.ts:235-261`). -/
def interpolateCore (cfg : InterpConfig) (evalE : ExprOracle) (ctxVal : JsVal)
    (cache : Cache) (template : String) (locals : Locals) :
    Except JsErr JsVal × Cache :=
  let keys := localKeys locals
  let sig := sigOf keys
  if cfg.useCache = false then
    match compile cfg.ctxName template keys with
    | .error e => (.error e, cache)
    | .ok fn => (runCompiled cfg.ctxName evalE ctxVal fn locals, cache)
  else
    match List.lookup (template, cfg.ctxName, sig) cache with
    | some fn => (runCompiled cfg.ctxName evalE ctxVal fn locals, cache)
    | none =>
      match compile cfg.ctxName template keys with
      | .error e => (.error e, cache)
      | .ok fn =>
        (runCompiled cfg.ctxName evalE ctxVal fn locals,
          ((template, cfg.ctxName, sig), fn) :: cache)

/-- `interpolate(template, locals, stack?)` (`unsafe.ts:222-262`): threading
the compiled-renderer cache explicitly.  A stack deeper than the configured
limit short-circuits to the bounded diagnostic string. -/
def interpolateC (cfg : InterpConfig) (evalE : ExprOracle) (ctxVal : JsVal)
    (cache : Cache) (template : String) (locals : Locals)
    (stack : Option (List Frame)) : Except JsErr JsVal × Cache :=
  match stack with
  | some st =>
    if cfg.recursionLimit < st.length then
      (.ok (.str (recursionDiagnostic cfg.recursionLimit st)), cache)
    else interpolateCore cfg evalE ctxVal cache template locals
  | none => interpolateCore cfg evalE ctxVal cache template locals

/-- A template that does not start with `${` and has no span later has no
span at all once its head is dropped. -/
theorem hasInterpSpan_cons_false {c : Char} {cs : List Char}
    (h : hasInterpSpan (c :: cs) = false) : hasInterpSpan cs = false := by
  by_cases hc : c = '$'
  · subst hc
    cases cs with
    | nil => rfl
    | cons d cs' =>
      by_cases hd : d = '{'
      · subst hd; simp [hasInterpSpan] at h
      · rw [hasInterpSpan.eq_def] at h
        simpa [hd] using h
  · rw [hasInterpSpan.eq_def] at h
    revert h
    cases cs <;> simp [hc]

/-- The main scanning loop on a span-free input accumulates one literal. -/
theorem scanTopF_noSpan : ∀ (rest : List Char) (acc : List Char) (fuel : Nat),
    rest.length < fuel → hasInterpSpan rest = false →
    scanTopF fuel acc rest =
      if (acc ++ rest).isEmpty then [] else [TplPart.lit (acc ++ rest)] := by
  intro rest
  induction rest with
  | nil =>
    intro acc fuel hf _
    cases fuel with
    | zero => omega
    | succ f => simp [scanTopF]
  | cons c cs ih =>
    intro acc fuel hf hs
    cases fuel with
    | zero => omega
    | succ f =>
      have hstep : scanTopF (f + 1) acc (c :: cs) = scanTopF f (acc ++ [c]) cs := by
        by_cases hc : c = '$'
        · subst hc
          cases cs with
          | nil => rfl
          | cons d cs' =>
            by_cases hd : d = '{'
            · subst hd; simp [hasInterpSpan] at hs
            · conv_lhs => rw [scanTopF.eq_def]
              simp [hd]
        · conv_lhs => rw [scanTopF.eq_def]
          simp [hc]
      rw [hstep, ih (acc ++ [c]) f (by simpa using Nat.lt_of_succ_lt_succ hf)
        (hasInterpSpan_cons_false hs)]
      simp

/-- A template with no `${` scans to a single literal part (or to no part at
all when the template is empty). -/
theorem splitTemplateIntoParts_noSpan (src : String)
    (hs : hasInterpSpan src.data = false) :
    splitTemplateIntoParts src =
      if src.data.isEmpty then [] else [TplPart.lit src.data] := by
  unfold splitTemplateIntoParts
  rw [scanTopF_noSpan src.data [] (src.data.length + 1) (Nat.lt_succ_self _) hs]
  simp

/-! ## High-level entry point — `interpolateUnsafely` (`unsafe.ts:296-436`) -/

/-- Naming overrides for the bound partial helper (`unsafe.ts:351-354`). -/
structure PartialNames where
  execFnName : String
  localVarName : String
deriving DecidableEq, Repr

/-- The prime context (`unsafe.ts:346-355`): the source string, the
`interpolate` flag (absent = `undefined`), and optional naming overrides.
The purpose-specific fields of the context object are carried by the
`interpCtx` callback models below. -/
structure PrimeCtx where
  source : String
  interpolate : Option Bool := none
  selfRefKeyName : Option String := none
  partials : Option PartialNames := none
deriving DecidableEq, Repr

/-- Destructuring default `selfRefKeyName = "SELF"` (`unsafe.ts:360`). -/
def selfRefKeyOf (c : PrimeCtx) : String := c.selfRefKeyName.getD "SELF"

/-- Destructuring default `{execFnName: "partial", localVarName: "PARTIAL"}`
(`unsafe.ts:361-364`). -/
def partialNamesOf (c : PrimeCtx) : PartialNames :=
  c.partials.getD ⟨"partial", "PARTIAL"⟩

/-- Result of `interpolateUnsafely` (`unsafe.ts:273-279`): `failed` is the
`status: false` arm.  `mutated` carries a `JsVal` because the dynamic
renderer can deliver a non-string despite the declared `source: string`
(the empty template compiles to `return ;`, i.e. `undefined`). -/
inductive UnsafeResult where
  | mutated (source : JsVal)
  | unmodified (source : String)
  | failed (error : JsErr) (source : String)
deriving DecidableEq, Repr

/-- The locals object assembled for the top-level render (`unsafe.ts:374-380`):
the per-call prime context spread first, then the self reference, the
JSON-stringify helper, and the bound partial helper, later keys overriding
earlier ones. -/
def assembleLocals (interpCtxPrime : Locals) (prime : PrimeCtx) : Locals :=
  jsObjOf (interpCtxPrime ++
    [(selfRefKeyOf prime, JsVal.other "prime context self reference"),
     ("safeJsonStringify", JsVal.other "safeJsonStringify helper"),
     ((partialNamesOf prime).execFnName, JsVal.other "bound partial helper")])

/-- The low-level engine's `interpolate` as seen by the entry point:
template, locals, optional recursion stack. -/
abbrev EngineInterp := String → Locals → Option (List Frame) → Except JsErr JsVal

/-- `interpolateUnsafely(ctx)` (`unsafe.ts:346-428`), parametric in the
engine call it wraps: a falsy `interpolate` flag short-circuits to
`unmodified`; a throw from the engine is caught and returned as `failed`;
otherwise the rendered value is compared with the source. -/
def interpolateUnsafely (interp : EngineInterp) (interpCtxPrime : Locals)
    (prime : PrimeCtx) : UnsafeResult :=
  if prime.interpolate ≠ some true then .unmodified prime.source
  else
    match interp prime.source (assembleLocals interpCtxPrime prime) none with
    | .error e => .failed e prime.source
    | .ok v =>
      if v ≠ .str prime.source then .mutated v else .unmodified prime.source

/-- `interpolateUnsafely` wired to the real cached engine of
`unsafeInterpolator` (`unsafe.ts:329,374`). -/
def interpolateUnsafelyVia (cfg : InterpConfig) (evalE : ExprOracle)
    (ctxVal : JsVal) (cache : Cache) (interpCtxPrime : Locals)
    (prime : PrimeCtx) : UnsafeResult :=
  interpolateUnsafely
    (fun s l st => (interpolateC cfg evalE ctxVal cache s l st).1)
    interpCtxPrime prime

/-! ## The bound partial helper (`unsafe.ts:380-418`)

`unsafe.ts` imports its fragment type from `lib/interpolate/partial.ts`,
which is not under `src/`; only the `status` check at `unsafe.ts:407`
witnesses its content-result shape. -/

/-- Modelled from the spec: the result of a fragment's `content(locals)` in
the missing `lib/interpolate/partial.ts` (spec §4.4 and the README give
`{content, interpolate, locals}`, and `unsafe.ts:407` additionally reads a
`status` field that is `"ok"` on a successful render). -/
structure PartialRenderR where
  status : String
  content : String
  interpolate : Bool
  locals : Locals
deriving DecidableEq, Repr

/-- A named fragment as consumed by the helper (`unsafe.ts:384-403`):
identity, source, and the `content(locals)` renderer, which may throw. -/
structure InterpFragment where
  identity : String
  source : String
  content : Locals → Except JsErr PartialRenderR

/-- The diagnostic comment for a missing partial (`unsafe.ts:385-390`). -/
def partialNotFoundMsg (name : String) (available : List String) : String :=
  "/* partial '" ++ name ++ "' not found (available: " ++
    joinSep ", " available ++ ") */"

/-- The locals built for a partial invocation (`unsafe.ts:393-401`):
JSON-stringify helper, then the purpose-specific partial context, then the
caller-supplied locals, then the partial's own record and the self
reference, later keys overriding earlier ones. -/
def assemblePartialLocals (interpCtxPartial : Locals) (callerLocals : Locals)
    (prime : PrimeCtx) : Locals :=
  jsObjOf ([("safeJsonStringify", JsVal.other "safeJsonStringify helper")] ++
    interpCtxPartial ++ callerLocals ++
    [((partialNamesOf prime).localVarName, JsVal.other "partial record"),
     (selfRefKeyOf prime, JsVal.other "prime context self reference")])

/-- The `partial(name, locals?)` helper bound into templates
(`unsafe.ts:380-418`): resolve the fragment, render its content, return the
content as-is when the render is not `"ok"`/interpolatable, otherwise
recursively interpolate it through the engine with a freshly seeded
single-frame recursion stack (`unsafe.ts:413-417`). -/
def partialHelper (interp : EngineInterp)
    (collec : List (String × InterpFragment))
    (interpCtxPartial : InterpFragment → Locals)
    (prime : PrimeCtx) (name : String) (callerLocals : Locals) :
    Except JsErr JsVal :=
  match List.lookup name collec with
  | none => .ok (.str (partialNotFoundMsg name (collec.map Prod.fst)))
  | some found =>
    match found.content
        (assemblePartialLocals (interpCtxPartial found) callerLocals prime) with
    | .error e => .error e
    | .ok pr =>
      if pr.status ≠ "ok" ∨ pr.interpolate = false then .ok (.str pr.content)
      else interp pr.content pr.locals (some [⟨pr.content⟩])

/-! ## Partial fragments and composition — `src/lib/universal/partial.ts` -/

/-- Injection mode (`partial.ts:40`). -/
inductive InjMode where
  | prepend
  | append
  | both
deriving DecidableEq, Repr

/-- Injection metadata (`partial.ts:38-42`).  The `wrap` closure of the
source is untouched by `compose` and by every claim, so it is not carried. -/
structure InjectionU where
  globs : List String
  mode : InjMode
deriving DecidableEq, Repr

/-- Result of a fragment render (`partial.ts:6-13`). -/
structure PartialRenderU where
  content : String
  interpolate : Bool
  locals : Locals
deriving DecidableEq, Repr

/-- The `onError` callback shape `(message, content, error?) => string`. -/
abbrev OnErrorFn := String → String → Option JsErr → String

/-- A partial fragment (`partial.ts:15-45`): identity, source, optional
locals validation, the `content` renderer (declared as a possibly-throwing
function field, as in `partialContentSchema`), injection metadata. -/
structure PartialContentU where
  identity : String
  source : String
  argsZodSchemaSpec : Option String
  content : Locals → Option OnErrorFn → Except JsErr PartialRenderU
  injection : Option InjectionU

/-- The validation-failure message (`partial.ts:124-128`). -/
def invalidArgsMsg (identity : String) (prettyErr : String)
    (specStr : Option String) : String :=
  "Invalid arguments passed to partial '" ++ identity ++ "': " ++ prettyErr ++
    "\n" ++ "Partial '" ++ identity ++ "' expected arguments " ++
    (specStr.getD "undefined")

/-- `partialContent(identity, source, zodSchemaSpec?, init?)`
(`partial.ts:61-147`).  The external Zod pipeline (`jsonToZod`,
`z.safeParse`, `z.prettifyError`, from files not under `src/`) is modelled
by an optional `validator` returning `some prettifiedError` exactly when the
locals are rejected.  Mode derivation and the content renderer follow
`partial.ts:72-137`. -/
def partialContent (identity source : String)
    (validator : Option (Locals → Option String)) (specStr : Option String)
    (injectGlobs : List String) (prepend append : Bool) : PartialContentU :=
  let hasPrepend := if prepend = false ∧ append = false then true else prepend
  let hasAppend := append
  let injection : Option InjectionU :=
    if injectGlobs.isEmpty then none
    else some ⟨injectGlobs,
      if hasPrepend ∧ hasAppend then .both
      else if hasAppend then .append else .prepend⟩
  { identity := identity
    source := source
    argsZodSchemaSpec := specStr
    injection := injection
    content := fun locals onError =>
      match validator with
      | some validate =>
        match validate locals with
        | some prettyErr =>
          let message := invalidArgsMsg identity prettyErr specStr
          .ok ⟨(match onError with
                | some f => f message source none
                | none => message), false, locals⟩
        | none => .ok ⟨source, true, locals⟩
      | none => .ok ⟨source, true, locals⟩ }

/-! ### Glob specificity ranking (`partial.ts:156-216`) -/

/-- Number of non-overlapping `**` occurrences, scanned left to right
(the JS `g.match(/\x2a\x2a/g)`). -/
def countStarStar : List Char → Nat
  | '*' :: '*' :: rest => countStarStar rest + 1
  | _ :: rest => countStarStar rest
  | [] => 0

/-- `g.replace(/\x2a\x2a/g, "")`: drop the same non-overlapping `**`
occurrences. -/
def removeStarStar : List Char → List Char
  | '*' :: '*' :: rest => removeStarStar rest
  | c :: rest => c :: removeStarStar rest
  | [] => []

/-- `wildcardCount` (`partial.ts:168-172`): 2 per `**` occurrence plus 1 per
remaining `*` or `?`. -/
def wildcardCount (g : String) : Nat :=
  countStarStar g.data * 2 +
    (removeStarStar g.data).countP (fun c => c = '*' ∨ c = '?')

/-- Split a character list at a separator character. -/
def splitOnChar (sep : Char) : List Char → List (List Char)
  | [] => [[]]
  | c :: rest =>
    if c = sep then [] :: splitOnChar sep rest
    else
      match splitOnChar sep rest with
      | s :: ss => (c :: s) :: ss
      | [] => [[c]]

/-- Split a character list at `/` separators. -/
def splitOnSlash : List Char → List (List Char) := splitOnChar '/'

/-- Modelled from the spec: segment cleanup of the external `@std/path`
`normalize` (resolve `.` and `..`, collapse repeated separators). -/
def normSegs : List (List Char) → List (List Char) → List (List Char)
  | acc, [] => acc.reverse
  | acc, [] :: rest => normSegs acc rest
  | acc, ['.'] :: rest => normSegs acc rest
  | acc, ['.', '.'] :: rest =>
    match acc with
    | [] => normSegs [['.', '.']] rest
    | ['.', '.'] :: _ => normSegs (['.', '.'] :: acc) rest
    | _ :: acc' => normSegs acc' rest
  | acc, s :: rest => normSegs (s :: acc) rest

/-- Modelled from the spec: the external `@std/path` `normalize` (posix
flavour), used by the registry before indexing and matching
(`partial.ts:176,193,209`). -/
def normalize (p : String) : String :=
  if p.data.isEmpty then "."
  else
    let abs := p.data.head? = some '/'
    let segs := normSegs [] (splitOnSlash p.data)
    let core := joinSep "/" (segs.map String.mk)
    if abs then "/" ++ core else if core = "" then "." else core

/-- Modelled from the spec: the external `@std/path` `isGlob` test deciding
whether a pattern compiles to a glob matcher or to an anchored exact match
(`partial.ts:174-185`). -/
def isGlobPattern (g : String) : Bool :=
  g.data.any (fun c =>
    c = '*' ∨ c = '?' ∨ c = '[' ∨ c = ']' ∨ c = '{' ∨ c = '}' ∨
    c = '(' ∨ c = ')' ∨ c = '!')

/-- Modelled from the spec: match one glob segment (no separators): `*` any
run, `?` one character, literals verbatim.  Fuel-structural; the wrapper
supplies sufficient fuel. -/
def matchSegF : Nat → List Char → List Char → Bool
  | 0, _, _ => false
  | _ + 1, [], [] => true
  | _ + 1, [], _ :: _ => false
  | fuel + 1, '*' :: ps, [] => matchSegF fuel ps []
  | fuel + 1, '*' :: ps, c :: ss =>
    matchSegF fuel ps (c :: ss) || matchSegF fuel ('*' :: ps) ss
  | _ + 1, '?' :: _, [] => false
  | fuel + 1, '?' :: ps, _ :: ss => matchSegF fuel ps ss
  | _ + 1, _ :: _, [] => false
  | fuel + 1, p :: ps, c :: ss => p = c && matchSegF fuel ps ss

/-- Wrapper choosing fuel that `matchSegF` can never exhaust (each step
shortens the pattern or the segment). -/
def matchSeg (p s : List Char) : Bool :=
  matchSegF (p.length + s.length + 1) p s

/-- Modelled from the spec: segment-wise glob matching with globstar — a
whole `**` segment spans any number of path segments (`@std/path`
`globToRegExp` with `globstar: true`). -/
def globSegsF : Nat → List (List Char) → List (List Char) → Bool
  | 0, _, _ => false
  | _ + 1, [], [] => true
  | _ + 1, [], _ :: _ => false
  | fuel + 1, p :: ps, segs =>
    if p = ['*', '*'] then
      globSegsF fuel ps segs ||
        (match segs with
        | [] => false
        | _ :: segs' => globSegsF fuel (p :: ps) segs')
    else
      match segs with
      | [] => false
      | s :: segs' => matchSeg p s && globSegsF fuel ps segs'

/-- Modelled from the spec: whether glob `g` accepts path `path`. -/
def globMatch (g path : String) : Bool :=
  let ps := splitOnSlash g.data
  let ss := splitOnSlash path.data
  globSegsF (ps.length + ss.length + 1) ps ss

/-- The compiled matcher of `toRegex` (`partial.ts:174-185`): a glob pattern
matches per glob semantics, a non-glob pattern is an anchored exact match of
its normalized text. -/
def toMatcher (glob : String) (path : String) : Bool :=
  if isGlobPattern glob then globMatch glob path else normalize glob = path

/-- An entry of the injectable index (`partial.ts:160-166`): identity, the
normalized glob (standing for its compiled regex), wildcard weight, and
literal glob length. -/
structure IndexEntry where
  identity : String
  glob : String
  wc : Nat
  len : Nat
deriving DecidableEq, Repr

/-- The matcher test `c.re.test(p)` for an index entry. -/
def entryAccepts (e : IndexEntry) (p : String) : Bool := toMatcher e.glob p

/-- `rebuildIndex` (`partial.ts:187-203`): one entry per glob of every
injectable fragment, with normalized glob, weight and length. -/
def rebuildIndex (catalog : List (String × PartialContentU)) : List IndexEntry :=
  (catalog.map (fun pr =>
    match pr.2.injection with
    | none => []
    | some inj =>
      inj.globs.map (fun g =>
        let gg := normalize g
        (⟨pr.2.identity, gg, wildcardCount gg, gg.data.length⟩ : IndexEntry)))).flatten

/-- The partial collection (`partial.ts:156-299`): the identity-keyed
catalog plus the derived injectable index. -/
structure PartialCollectionU where
  catalog : List (String × PartialContentU)
  index : List IndexEntry

/-- A collection whose index is derived from its catalog, as maintained by
`register`/`rebuildIndex`. -/
def collectionOf (catalog : List (String × PartialContentU)) : PartialCollectionU :=
  ⟨catalog, rebuildIndex catalog⟩

/-- The sort order of `hits` (`partial.ts:212`): ascending wildcard weight,
ties broken by descending literal length. -/
def entryLE (a b : IndexEntry) : Prop :=
  a.wc < b.wc ∨ (a.wc = b.wc ∧ b.len ≤ a.len)

instance : DecidableRel entryLE := fun a b => by unfold entryLE; infer_instance

instance : IsTotal IndexEntry entryLE := ⟨by
  intro a b
  unfold entryLE
  omega⟩

instance : IsTrans IndexEntry entryLE := ⟨by
  intro a b c hab hbc
  unfold entryLE at hab hbc ⊢
  omega⟩

/-- `findInjectableForPath(path)` (`partial.ts:205-216`): normalize the
path, keep accepting index entries, sort by `entryLE`, resolve the first
hit's identity in the catalog.  A missing or empty path (falsy in JS) finds
nothing. -/
def findInjectableForPath (coll : PartialCollectionU) (path : Option String) :
    Option PartialContentU :=
  match path with
  | none => none
  | some path =>
    if path = "" then none
    else
      let p := normalize path
      let hits := List.insertionSort entryLE
        (coll.index.filter (fun c => entryAccepts c p))
      match hits with
      | [] => none
      | c :: _ => List.lookup c.identity coll.catalog

/-- Model of the JS `String(err)` coercion used in the default compose
error text (`partial.ts:275`): the carried message. -/
def jsErrToString (e : JsErr) : String := e.msg

/-- `compose(result, ctx?)` (`partial.ts:249-294`): wrap the best-matching
injectable around a prior render, failing closed when the wrapper reports
invalid arguments or throws. -/
def compose (coll : PartialCollectionU) (result : PartialRenderU)
    (path : Option String) (onError : Option OnErrorFn) : PartialRenderU :=
  match findInjectableForPath coll path with
  | none => result
  | some wrapper =>
    match wrapper.injection with
    | none => result
    | some inj =>
      match wrapper.content result.locals none with
      | .error err =>
        let msg := "Injectable '" ++ wrapper.identity ++ "' failed to render"
        ⟨(match onError with
          | some f => f msg result.content (some err)
          | none => msg ++ ": " ++ jsErrToString err), false, result.locals⟩
      | .ok wr =>
        if wr.interpolate = false then
          let msg := "Injectable '" ++ wrapper.identity ++ "' failed to render"
          ⟨(match onError with
            | some f => f msg result.content none
            | none => msg ++ ": wrapper reported invalid arguments"),
            false, result.locals⟩
        else
          let m1 :=
            if inj.mode = .prepend ∨ inj.mode = .both then
              wr.content ++ "\n" ++ result.content
            else result.content
          let merged :=
            if inj.mode = .append ∨ inj.mode = .both then
              m1 ++ "\n" ++ wr.content
            else m1
          ⟨merged, result.interpolate, result.locals⟩

/-! ## Capture / history bridge (the capture module) -/

/-- The optional `gitignore` directive of a filesystem capture spec. -/
inductive GitIgnoreOpt where
  | flag (b : Bool)
  | pattern (s : String)
deriving DecidableEq, Repr

/-- `CaptureSpec`: a relative filesystem path (with optional
version-control-ignore directive) or an in-memory history key. -/
inductive CaptureSpec where
  | relFsPath (fsPath : String) (gitign : Option GitIgnoreOpt)
  | memory (key : String)
deriving DecidableEq, Repr

/-- The `Captured` adapter.  `json()` parses `text()` through the external
JSON parser and is not modelled separately. -/
structure Captured where
  text : String
deriving DecidableEq, Repr

/-- Observable state the capture helpers mutate: the in-memory history and
the file contents written through `Deno.writeTextFile`. -/
structure CaptureState where
  history : List (String × Captured)
  fs : List (String × String)
deriving DecidableEq, Repr

/-- Modelled from the spec: `ensureTrailingNewline` from
`lib/universal/text-utils.ts`, which is not under `src/`; per the spec the
written text carries exactly one trailing newline. -/
def ensureTrailingNewline (s : String) : String :=
  String.mk ((s.data.reverse.dropWhile (fun c => c = '\n')).reverse ++ ['\n'])

/-- `typicalOnCapture(cs, cap, history)`: a path spec writes the adapter's
text (with its trailing newline ensured) to the path; a memory spec stores
the adapter under `history[key]`, overwriting any prior entry. -/
def typicalOnCapture (cs : CaptureSpec) (cap : Captured) (st : CaptureState) :
    CaptureState :=
  match cs with
  | .relFsPath p _ => { st with fs := assocSet st.fs p (ensureTrailingNewline cap.text) }
  | .memory k => { st with history := assocSet st.history k cap }

/-- `captureFactory(...).capture(ctx, op)`: ask `isCapturable` for specs
(`none` models the `false` return), build the adapter once, then run
`onCapture` for each spec in order. -/
def captureRun {Ctx Op : Type}
    (isCapturable : Ctx → Op → Option (List CaptureSpec))
    (prepareCaptured : Op → Ctx → Captured)
    (onCapture : CaptureSpec → Captured → CaptureState → CaptureState)
    (ctx : Ctx) (op : Op) (st : CaptureState) : CaptureState :=
  match isCapturable ctx op with
  | none => st
  | some specs =>
    let cap := prepareCaptured op ctx
    specs.foldl (fun s cs => onCapture cs cap s) st

/-- Read `captured[key].text()` from the history, as a later interpolation
context would. -/
def capturedText (st : CaptureState) (key : String) : Option String :=
  (List.lookup key st.history).map Captured.text

/-! ## Restricted (safe) interpolation variant

`lib/interpolate/safe.ts` is not under `src/`.  The whole variant is
modelled from the spec (§4.5, §6): the external contract of the trusted
engine, with the expression grammar reduced to `identifierPath` lookups and
`partial('name', locals?)` calls. -/

/-- Modelled from the spec: an expression of the restricted grammar. -/
inductive RestrictedExpr where
  | lookupPath (path : List String)
  | partialCall (name : String) (localsArg : Option (List Char))
deriving DecidableEq, Repr

/-- Strip leading and trailing spaces. -/
def trimSpaces (cs : List Char) : List Char :=
  ((cs.dropWhile (fun c => c = ' ')).reverse.dropWhile (fun c => c = ' ')).reverse

/-- When `cs` starts with `pre`, the remainder after it. -/
def dropPrefixChars : List Char → List Char → Option (List Char)
  | [], rest => some rest
  | _ :: _, [] => none
  | p :: ps, c :: rest => if p = c then dropPrefixChars ps rest else none

/-- Characters up to (excluding) a closing quote, plus the remainder after
the quote. -/
def takeUntilQuote (q : Char) : List Char → Option (List Char × List Char)
  | [] => none
  | c :: rest =>
    if c = q then some ([], rest)
    else
      match takeUntilQuote q rest with
      | some (nm, rem) => some (c :: nm, rem)
      | none => none

/-- Modelled from the spec: parse a `partial('name')` or
`partial('name', locals)` call (single- or double-quoted name, the optional
locals argument kept raw). -/
def parsePartialCallR (cs : List Char) : Option RestrictedExpr :=
  match dropPrefixChars "partial(".data (trimSpaces cs) with
  | none => none
  | some rest =>
    match rest.dropWhile (fun c => c = ' ') with
    | [] => none
    | q :: rest' =>
      if q = '\'' ∨ q = '"' then
        match takeUntilQuote q rest' with
        | none => none
        | some (nm, rem) =>
          match rem.dropWhile (fun c => c = ' ') with
          | [')'] => some (.partialCall (String.mk nm) none)
          | ',' :: argRest =>
            match argRest.reverse with
            | ')' :: revArg => some (.partialCall (String.mk nm) (some revArg.reverse))
            | _ => none
          | _ => none
      else none

/-- Modelled from the spec: parse a dotted identifier path. -/
def parseIdentPath (cs : List Char) : Option (List String) :=
  let segs := (splitOnChar '.' cs).map String.mk
  if segs.all (fun s => isValidIdent s) then some segs else none

/-- Modelled from the spec: the restricted expression grammar — a
`partial(...)` call or an identifier path, nothing else. -/
def parseRestricted (cs : List Char) : Option RestrictedExpr :=
  match parsePartialCallR cs with
  | some e => some e
  | none =>
    match parseIdentPath (trimSpaces cs) with
    | some p => some (.lookupPath p)
    | none => none

/-- A compiled restricted-template part. -/
inductive RPart where
  | lit (value : List Char)
  | expr (e : RestrictedExpr)
deriving DecidableEq, Repr

/-- Modelled from the spec: the descriptive compile error for an expression
outside the restricted grammar. -/
def restrictedErrMsg (e : List Char) : String :=
  "Restricted template compile error: unsupported expression \"" ++
    String.mk e ++
    "\". Only identifier-path lookups and partial(...) calls are allowed."

/-- Modelled from the spec: compile the scanned parts under the restricted
grammar, failing at the first expression outside it. -/
def compileRestrictedParts : List TplPart → Except String (List RPart)
  | [] => .ok []
  | .lit v :: ps => (compileRestrictedParts ps).map (fun r => RPart.lit v :: r)
  | .expr ecs :: ps =>
    match parseRestricted ecs with
    | none => .error (restrictedErrMsg ecs)
    | some e => (compileRestrictedParts ps).map (fun r => RPart.expr e :: r)

/-- Modelled from the spec: the restricted compiler over the same `${...}`
span scanner as the trusted engine. -/
def compileRestricted (source : String) : Except String (List RPart) :=
  compileRestrictedParts (splitTemplateIntoParts source)

/-- Display coercion for a substituted value. -/
def jsDisplay : JsVal → String
  | .undef => "undefined"
  | .nan => "NaN"
  | .str s => s
  | .other tag => tag

/-- Modelled from the spec: render compiled restricted parts — pure
substitution for lookups, fragment expansion for partial calls, no other
evaluation. -/
def renderRestricted (evalLookup : List String → JsVal)
    (partialEval : String → Option (List Char) → Except JsErr String) :
    List RPart → Except JsErr String
  | [] => .ok ""
  | .lit v :: ps =>
    (renderRestricted evalLookup partialEval ps).map (fun r => String.mk v ++ r)
  | .expr (.lookupPath p) :: ps =>
    (renderRestricted evalLookup partialEval ps).map
      (fun r => jsDisplay (evalLookup p) ++ r)
  | .expr (.partialCall nm arg) :: ps =>
    match partialEval nm arg with
    | .error e => .error e
    | .ok v => (renderRestricted evalLookup partialEval ps).map (fun r => v ++ r)

/-- Modelled from the spec: the restricted engine's `interpolateUnsafely`
counterpart, returning the same result statuses as the trusted engine. -/
def interpolateSafelyVia (evalLookup : List String → JsVal)
    (partialEval : String → Option (List Char) → Except JsErr String)
    (prime : PrimeCtx) : UnsafeResult :=
  if prime.interpolate ≠ some true then .unmodified prime.source
  else
    match compileRestricted prime.source with
    | .error msg => .failed ⟨msg⟩ prime.source
    | .ok parts =>
      match renderRestricted evalLookup partialEval parts with
      | .error e => .failed e prime.source
      | .ok out =>
        if out ≠ prime.source then .mutated (.str out) else .unmodified prime.source

/-! ## Recursive partial expansion as executed by the engine

To settle the recursion-limit claim we close the loop between
`interpolate` (`unsafe.ts:229-233`) and the bound partial helper
(`unsafe.ts:380-418`) for templates whose expressions are plain
`partial('name')` calls on schema-less fragments (the self-recursion
scenario): the helper resolves the fragment, its `content` renders the
source as-is, and the helper re-enters `interpolate` with the freshly
seeded single-frame stack of `unsafe.ts:416`.  `fuel` bounds the nesting
depth that is explored: `none` means the expansion is still running after
`fuel` nested renders. -/

/-- Parse the `partial('name')` expression shape evaluated through the bound
helper (with an optional leading `await`). -/
def parseHelperCall (cs : List Char) : Option String :=
  let cs' :=
    match dropPrefixChars "await ".data (trimSpaces cs) with
    | some rest => rest.dropWhile (fun c => c = ' ')
    | none => trimSpaces cs
  match parsePartialCallR cs' with
  | some (.partialCall nm _) => some nm
  | _ => none

/-- Concatenate part values left to right; `none` (still running) is
absorbing. -/
def evalConcat (evalE : List Char → Option String) : List TplPart → Option String
  | [] => some ""
  | .lit v :: ps => (evalConcat evalE ps).map (fun r => String.mk v ++ r)
  | .expr e :: ps =>
    match evalE e, evalConcat evalE ps with
    | some v, some r => some (v ++ r)
    | _, _ => none

/-- Depth-bounded run of `interpolate` with the partial helper bound:
the recursion guard of `unsafe.ts:229-233`, then part-wise evaluation where
each `partial('n')` expression resolves the fragment and re-enters with the
fresh single-frame stack `[{template: content}]` of `unsafe.ts:413-417`. -/
def runTplExpand (collec : List (String × String)) (limit : Nat)
    (evalOther : List Char → Option String) :
    Nat → Option (List Frame) → String → Option String
  | 0, _, _ => none
  | fuel + 1, stack, tpl =>
    match stack with
    | some st =>
      if limit < st.length then some (recursionDiagnostic limit st)
      else
        evalConcat (fun ecs =>
          match parseHelperCall ecs with
          | some nm =>
            match List.lookup nm collec with
            | none => some (partialNotFoundMsg nm (collec.map Prod.fst))
            | some src => runTplExpand collec limit evalOther fuel (some [⟨src⟩]) src
          | none => evalOther ecs) (splitTemplateIntoParts tpl)
    | none =>
      evalConcat (fun ecs =>
        match parseHelperCall ecs with
        | some nm =>
          match List.lookup nm collec with
          | none => some (partialNotFoundMsg nm (collec.map Prod.fst))
          | some src => runTplExpand collec limit evalOther fuel (some [⟨src⟩]) src
        | none => evalOther ecs) (splitTemplateIntoParts tpl)

/-! ## Scenario data and shared lemmas for the recursion-limit claim -/

/-- The self-recursive fragment source `${await partial('a')}`. -/
def selfRecursiveSrc : String := "$\x7bawait partial('a')\x7d"

/-- The expression span the scanner extracts from `selfRecursiveSrc`. -/
def selfRecExprChars : List Char := "await partial('a')".data

/-- A collection with the single fragment `a` whose source invokes itself. -/
def selfRecursiveCollec : List (String × String) := [("a", selfRecursiveSrc)]

theorem split_selfRec :
    splitTemplateIntoParts selfRecursiveSrc = [TplPart.expr selfRecExprChars] := by
  decide

theorem parseHelper_selfRec : parseHelperCall selfRecExprChars = some "a" := by
  decide

theorem lookup_selfRec : List.lookup "a" selfRecursiveCollec = some selfRecursiveSrc := by
  decide

/-- For every recursion limit of at least 1, expanding the self-recursive
fragment is still running after any number of nested renders, whether the
render starts with no stack (the top-level call) or with the single-frame
stack the helper seeds. -/
theorem runTplExpand_selfRec_aux (limit : Nat) (hl : 1 ≤ limit) (fuel : Nat) :
    runTplExpand selfRecursiveCollec limit (fun _ => none) fuel none selfRecursiveSrc = none ∧
    runTplExpand selfRecursiveCollec limit (fun _ => none) fuel
      (some [⟨selfRecursiveSrc⟩]) selfRecursiveSrc = none := by
  induction fuel with
  | zero => exact ⟨rfl, rfl⟩
  | succ f ih =>
    have hguard : ¬ (limit < 1) := by omega
    constructor
    · rw [runTplExpand, split_selfRec]
      simp only [evalConcat, parseHelper_selfRec, lookup_selfRec, ih.2]
    · rw [runTplExpand]
      simp only [List.length_cons, List.length_nil, Nat.zero_add, hguard, if_false]
      rw [split_selfRec]
      simp only [evalConcat, parseHelper_selfRec, lookup_selfRec, ih.2]

end Spry

namespace Spry

/-- C1: a partial that invokes itself via `partial('a')` never terminates
with the recursion-limit diagnostic.  The bound helper reseeds a fresh
single-frame stack on every nested call (`unsafe.ts:416`), so the guard
`stack.length > recursionLimit` (`unsafe.ts:229`) compares 1 with the limit
at every depth and never fires for limit 2 (nor for the default 9): the
expansion of the template `${await partial('a')}` is still running after
arbitrarily many nested renders, instead of stopping with a diagnostic
string naming the limit as the claim states. -/
theorem C1_selfRecursive_never_reaches_diagnostic :
    ∀ fuel : Nat,
      runTplExpand selfRecursiveCollec 2 (fun _ => none) fuel none selfRecursiveSrc = none ∧
      runTplExpand selfRecursiveCollec 9 (fun _ => none) fuel none selfRecursiveSrc = none :=
  fun fuel =>
    ⟨(runTplExpand_selfRec_aux 2 (by omega) fuel).1,
     (runTplExpand_selfRec_aux 9 (by omega) fuel).1⟩

/-- C3: `interpolateUnsafely` never throws to its caller: a non-true
`interpolate` flag yields `unmodified` with the source unchanged; a throw
from the render is caught and returned as `failed` (status `false`) with
the error and the source; a rendered value equal to the input reports
`unmodified`; a different rendered value reports `mutated` with the
output. -/
theorem C3_interpolateUnsafely_cases (interp : EngineInterp)
    (ictx : Locals) (prime : PrimeCtx) :
    (prime.interpolate ≠ some true →
      interpolateUnsafely interp ictx prime = .unmodified prime.source) ∧
    (∀ e, prime.interpolate = some true →
      interp prime.source (assembleLocals ictx prime) none = .error e →
      interpolateUnsafely interp ictx prime = .failed e prime.source) ∧
    (∀ v, prime.interpolate = some true →
      interp prime.source (assembleLocals ictx prime) none = .ok v →
      v = .str prime.source →
      interpolateUnsafely interp ictx prime = .unmodified prime.source) ∧
    (∀ v, prime.interpolate = some true →
      interp prime.source (assembleLocals ictx prime) none = .ok v →
      v ≠ .str prime.source →
      interpolateUnsafely interp ictx prime = .mutated v) := by
  refine ⟨?_, ?_, ?_, ?_⟩
  · intro h
    simp [interpolateUnsafely, h]
  · intro e hflag herr
    simp [interpolateUnsafely, hflag, herr]
  · intro v hflag hok hv
    simp [interpolateUnsafely, hflag, hok, hv]
  · intro v hflag hok hv
    simp [interpolateUnsafely, hflag, hok, hv]

/-- Witness for C3: a concrete engine whose output differs from the source
is reported `mutated` with that output. -/
theorem C3_interpolateUnsafely_cases_witness :
    interpolateUnsafely (fun _ _ _ => .ok (.str "rendered")) []
      ⟨"src", some true, none, none⟩ = .mutated (.str "rendered") :=
  (C3_interpolateUnsafely_cases (fun _ _ _ => .ok (.str "rendered")) []
    ⟨"src", some true, none, none⟩).2.2.2 (.str "rendered") rfl rfl (by decide)

/-- C10: an omitted `interpolate` flag, or the flag `false`, short-circuits
exactly like `interpolate === false`: the result is `unmodified` with the
original source, independently of the engine and of the context assembly —
so nothing is compiled, rendered, or partial-expanded. -/
theorem C10_falsy_flag_short_circuits (prime : PrimeCtx)
    (h : prime.interpolate = none ∨ prime.interpolate = some false) :
    ∀ (i₁ i₂ : EngineInterp) (l₁ l₂ : Locals),
      interpolateUnsafely i₁ l₁ prime = .unmodified prime.source ∧
      interpolateUnsafely i₁ l₁ prime = interpolateUnsafely i₂ l₂ prime := by
  intro i₁ i₂ l₁ l₂
  have hne : prime.interpolate ≠ some true := by
    rcases h with h | h <;> simp [h]
  constructor
  · simp [interpolateUnsafely, hne]
  · simp [interpolateUnsafely, hne]

/-- Witness for C10: a flag-less prime context is reported `unmodified`
even under an engine that would mutate everything. -/
theorem C10_falsy_flag_short_circuits_witness :
    interpolateUnsafely (fun _ _ _ => .ok (.str "X")) []
      ⟨"body", none, none, none⟩ = .unmodified "body" :=
  (C10_falsy_flag_short_circuits ⟨"body", none, none, none⟩ (Or.inl rfl)
    (fun _ _ _ => .ok (.str "X")) (fun _ _ _ => .ok .undef) [] []).1

/-- C2: when the fragment's `content(locals)` reports non-interpolatable
output, the helper returns that content as-is without re-interpolation;
when it reports an interpolatable render (spec-modelled: status `"ok"` iff
interpolatable), the helper recursively interpolates the rendered content
through the same engine with the locals the fragment returned and a new
frame seeded with the fragment's content as the recursion stack. -/
theorem C2_partialHelper_branches (interp : EngineInterp)
    (collec : List (String × InterpFragment))
    (ictxp : InterpFragment → Locals) (prime : PrimeCtx)
    (name : String) (callerLocals : Locals) (found : InterpFragment)
    (pr : PartialRenderR)
    (hfound : List.lookup name collec = some found)
    (hcontent : found.content
      (assemblePartialLocals (ictxp found) callerLocals prime) = .ok pr)
    (hinv : pr.status = "ok" ↔ pr.interpolate = true) :
    (pr.interpolate = false →
      partialHelper interp collec ictxp prime name callerLocals =
        .ok (.str pr.content)) ∧
    (pr.interpolate = true →
      partialHelper interp collec ictxp prime name callerLocals =
        interp pr.content pr.locals (some [⟨pr.content⟩])) := by
  constructor
  · intro hf
    simp [partialHelper, hfound, hcontent, hf]
  · intro ht
    have hok : pr.status = "ok" := hinv.mpr ht
    simp [partialHelper, hfound, hcontent, hok, ht]

/-- A schema-less fragment whose render always succeeds. -/
def c2Fragment : InterpFragment :=
  ⟨"f", "body", fun l => .ok ⟨"ok", "body", true, l⟩⟩

/-- Witness for C2: the interpolatable branch re-enters the engine on the
fragment's content with the single seeded frame. -/
theorem C2_partialHelper_branches_witness :
    partialHelper (fun s _ _ => .ok (.str ("R:" ++ s))) [("f", c2Fragment)]
      (fun _ => []) ⟨"p", some true, none, none⟩ "f" [] = .ok (.str "R:body") := by
  have h := (C2_partialHelper_branches (fun s _ _ => .ok (.str ("R:" ++ s)))
    [("f", c2Fragment)] (fun _ => []) ⟨"p", some true, none, none⟩ "f" []
    c2Fragment
    ⟨"ok", "body", true, assemblePartialLocals [] [] ⟨"p", some true, none, none⟩⟩
    rfl rfl (by simp)).2 rfl
  rw [h]
  rfl

/-- Rebuilding a string from its characters is the identity. -/
theorem mk_data (s : String) : String.mk s.data = s := by cases s; rfl

/-- A successful lookup pairs the searched key with the found value. -/
theorem lookup_mem {α β : Type} [BEq α] [LawfulBEq α] {k : α} {v : β} :
    ∀ {l : List (α × β)}, List.lookup k l = some v → (k, v) ∈ l := by
  intro l
  induction l with
  | nil => intro h; simp [List.lookup] at h
  | cons p t ih =>
    intro h
    obtain ⟨a, b⟩ := p
    rw [List.lookup] at h
    by_cases hk : (k == a) = true
    · simp [hk] at h
      subst h
      simp [eq_of_beq hk]
    · rw [Bool.not_eq_true] at hk
      rw [hk] at h
      exact List.mem_cons_of_mem _ (ih h)

/-- The validation `compile` performs on the locals keys
(`unsafe.ts:183-188`): no collision with the context name, all keys valid
identifiers. -/
def keysOK (ctxName : String) (keys : List String) : Bool :=
  !keys.contains ctxName && keys.all (fun k => isValidIdent k)

/-- Valid keys compile to the scanned parts of the template. -/
theorem compile_of_keysOK {ctxName source : String} {keys : List String}
    (h : keysOK ctxName keys = true) :
    compile ctxName source keys = .ok ⟨keys, splitTemplateIntoParts source⟩ := by
  unfold keysOK at h
  rw [Bool.and_eq_true] at h
  obtain ⟨h1, h2⟩ := h
  rw [List.all_eq_true] at h2
  have hf : keys.find? (fun k => !isValidIdent k) = none := by
    rw [List.find?_eq_none]
    intro x hx
    simp [h2 x hx]
  simp only [Bool.not_eq_true'] at h1
  have h1' : ctxName ∉ keys := by simpa using h1
  simp [compile, h1', hf]

/-- A well-formed renderer cache: every cached renderer carries the scanned
parts of the template of its key (the invariant `interpolate` maintains:
entries are only ever created by compiling the looked-up template). -/
def CacheWF (cache : Cache) : Prop :=
  ∀ e ∈ cache, (e.2).parts = splitTemplateIntoParts e.1.1

/-- Rendering a compiled single-literal template yields that literal,
whatever the keys, the oracle and the locals. -/
theorem runCompiled_lit (ctxName : String) (evalE : ExprOracle) (ctxVal : JsVal)
    (ks : List String) (locals : Locals) (d : List Char) :
    runCompiled ctxName evalE ctxVal ⟨ks, [.lit d]⟩ locals =
      .ok (.str (String.mk d)) := rfl

/-- C4 counterexample: the empty template contains no `${...}` span, yet it
compiles to a bare `return ;`, renders as `undefined`, and
`interpolateUnsafely` reports `mutated` with a non-string source — not
`unmodified` with the original source as claimed. -/
theorem C4_counterexample_empty_template :
    interpolateUnsafelyVia {} (fun _ _ => .ok .undef) (.other "ctx") [] []
      ⟨"", some true, none, none⟩ = .mutated .undef ∧
    interpolateUnsafelyVia {} (fun _ _ => .ok .undef) (.other "ctx") [] []
      ⟨"", some true, none, none⟩ ≠ .unmodified "" := by
  constructor
  · decide
  · decide

/-- C4 (amended): every non-empty template without a `${` span, rendered
through locals whose keys pass compilation against a well-formed cache, is
returned unchanged by the engine and reported `unmodified` with the
original source by `interpolateUnsafely`. -/
theorem C4_noSpan_unmodified (cfg : InterpConfig) (evalE : ExprOracle)
    (ctxVal : JsVal) (cache : Cache) (ictx : Locals) (prime : PrimeCtx)
    (hflag : prime.interpolate = some true)
    (hne : prime.source.data ≠ [])
    (hspan : hasInterpSpan prime.source.data = false)
    (hkeys : keysOK cfg.ctxName (localKeys (assembleLocals ictx prime)) = true)
    (hcw : CacheWF cache) :
    (interpolateC cfg evalE ctxVal cache prime.source
        (assembleLocals ictx prime) none).1 = .ok (.str prime.source) ∧
    interpolateUnsafelyVia cfg evalE ctxVal cache ictx prime =
      .unmodified prime.source := by
  have hsplit : splitTemplateIntoParts prime.source = [TplPart.lit prime.source.data] := by
    rw [splitTemplateIntoParts_noSpan _ hspan]
    simp [hne]
  have hrun : ∀ fn : CompiledTpl, fn.parts = splitTemplateIntoParts prime.source →
      runCompiled cfg.ctxName evalE ctxVal fn (assembleLocals ictx prime) =
        .ok (.str prime.source) := by
    intro fn hp
    unfold runCompiled
    rw [hp, hsplit]
    show Except.ok (JsVal.str (String.mk prime.source.data)) = _
    rw [mk_data]
  have hvalue : (interpolateC cfg evalE ctxVal cache prime.source
      (assembleLocals ictx prime) none).1 = .ok (.str prime.source) := by
    simp only [interpolateC, interpolateCore]
    rcases hyc : cfg.useCache with _ | _
    · rw [compile_of_keysOK hkeys]
      simp only [if_true]
      exact hrun _ rfl
    · simp only [Bool.true_eq_false, if_false]
      rcases hlk : List.lookup (prime.source, cfg.ctxName,
          sigOf (localKeys (assembleLocals ictx prime))) cache with _ | fn
      · rw [compile_of_keysOK hkeys]
        exact hrun _ rfl
      · exact hrun fn (hcw _ (lookup_mem hlk))
  refine ⟨hvalue, ?_⟩
  unfold interpolateUnsafelyVia interpolateUnsafely
  rw [hflag]
  simp only [ne_eq, not_true_eq_false, if_false]
  rw [hvalue]
  simp

/-- Witness for C4 (amended) at a concrete non-empty template. -/
theorem C4_noSpan_unmodified_witness :
    interpolateUnsafelyVia {} (fun _ _ => .ok .undef) (.other "ctx") [] []
      ⟨"hello", some true, none, none⟩ = .unmodified "hello" :=
  (C4_noSpan_unmodified {} (fun _ _ => .ok .undef) (.other "ctx") [] []
    ⟨"hello", some true, none, none⟩ rfl (by decide) (by decide) (by decide)
    (fun e he => absurd he (List.not_mem_nil e))).2

/-- C6: `compose` returns the render result unchanged when no injectable
matches the path; otherwise it renders the wrapper with the result's locals
and merges by mode — `prepend` puts the wrapper before, `append` after,
`both` on each side, joined by newlines — preserving the result's
`interpolate` flag and locals; a wrapper that reports non-interpolatable
output or throws produces a fail-closed error result via `onError` or a
default message, and `compose` itself never throws. -/
theorem C6_compose_cases (coll : PartialCollectionU) (result : PartialRenderU)
    (path : Option String) (onError : Option OnErrorFn) :
    (findInjectableForPath coll path = none →
      compose coll result path onError = result) ∧
    (∀ w inj wr, findInjectableForPath coll path = some w →
      w.injection = some inj →
      w.content result.locals none = .ok wr →
      wr.interpolate = true →
      (inj.mode = .prepend →
        compose coll result path onError =
          ⟨wr.content ++ "\n" ++ result.content, result.interpolate, result.locals⟩) ∧
      (inj.mode = .append →
        compose coll result path onError =
          ⟨result.content ++ "\n" ++ wr.content, result.interpolate, result.locals⟩) ∧
      (inj.mode = .both →
        compose coll result path onError =
          ⟨wr.content ++ "\n" ++ result.content ++ "\n" ++ wr.content,
            result.interpolate, result.locals⟩)) ∧
    (∀ w inj wr, findInjectableForPath coll path = some w →
      w.injection = some inj →
      w.content result.locals none = .ok wr →
      wr.interpolate = false →
      compose coll result path onError =
        ⟨(match onError with
          | some f => f ("Injectable '" ++ w.identity ++ "' failed to render")
              result.content none
          | none => "Injectable '" ++ w.identity ++
              "' failed to render: wrapper reported invalid arguments"),
          false, result.locals⟩) ∧
    (∀ w inj err, findInjectableForPath coll path = some w →
      w.injection = some inj →
      w.content result.locals none = .error err →
      compose coll result path onError =
        ⟨(match onError with
          | some f => f ("Injectable '" ++ w.identity ++ "' failed to render")
              result.content (some err)
          | none => "Injectable '" ++ w.identity ++ "' failed to render: " ++
              jsErrToString err),
          false, result.locals⟩) := by
  refine ⟨?_, ?_, ?_, ?_⟩
  · intro h
    simp [compose, h]
  · intro w inj wr hf hinj hcw hi
    refine ⟨?_, ?_, ?_⟩ <;> intro hm <;>
      simp [compose, hf, hinj, hcw, hi, hm, String.append_assoc]
  · intro w inj wr hf hinj hcw hi
    rcases onError with _ | f <;> simp [compose, hf, hinj, hcw, hi, String.append_assoc]
  · intro w inj err hf hinj hcw
    rcases onError with _ | f <;> simp [compose, hf, hinj, hcw, String.append_assoc]

/-- A concrete injectable wrapper registered for `reports/*.sql` with both
prepend and append requested (mode `both`). -/
def c6Wrapper : PartialContentU :=
  partialContent "wrap" "-- W" none none ["reports/*.sql"] true true

/-- A collection holding only the wrapper. -/
def c6Coll : PartialCollectionU := collectionOf [("wrap", c6Wrapper)]

/-- Witness for C6: composing a render result under the `both` wrapper puts
the wrapper text on each side. -/
theorem C6_compose_cases_witness :
    compose c6Coll ⟨"SELECT 1", true, []⟩ (some "reports/x.sql") none =
      ⟨"-- W" ++ "\n" ++ "SELECT 1" ++ "\n" ++ "-- W", true, []⟩ :=
  ((C6_compose_cases c6Coll ⟨"SELECT 1", true, []⟩ (some "reports/x.sql")
    none).2.1 c6Wrapper ⟨["reports/*.sql"], .both⟩ ⟨"-- W", true, []⟩
    rfl rfl rfl rfl).2.2 rfl

/-- `entryLE` is reflexive (ties in weight and length are related). -/
theorem entryLE_refl (a : IndexEntry) : entryLE a a := Or.inr ⟨rfl, le_refl _⟩

/-- An injectable fragment registered under `**/*.sql`. -/
def c5Star : PartialContentU :=
  partialContent "star" "-- any sql" none none ["**/*.sql"] false false

/-- An injectable fragment registered under `reports/*.sql`. -/
def c5Reports : PartialContentU :=
  partialContent "rep" "-- reports" none none ["reports/*.sql"] false false

/-- A collection holding both fragments. -/
def c5Coll : PartialCollectionU :=
  collectionOf [("star", c5Star), ("rep", c5Reports)]

/-- C5: `findInjectableForPath` normalizes the path, keeps only index
entries whose matcher accepts it, and returns a fragment registered by an
accepting entry of minimal wildcard weight (ties broken by longest literal
glob length, per `entryLE`); the weight is 2 per `**` plus 1 per remaining
`*`/`?` (`**/*.sql` weighs 3, `reports/*.sql` weighs 1), non-glob patterns
match exactly their normalized text, and with both `**/*.sql` and
`reports/*.sql` accepting `reports/x.sql` the fragment registered under
`reports/*.sql` is selected. -/
theorem C5_findInjectable_most_specific (coll : PartialCollectionU)
    (p : String) (frag : PartialContentU) (hp : p ≠ "")
    (hfind : findInjectableForPath coll (some p) = some frag) :
    (∃ e, e ∈ coll.index ∧ entryAccepts e (normalize p) = true ∧
      List.lookup e.identity coll.catalog = some frag ∧
      ∀ e' ∈ coll.index, entryAccepts e' (normalize p) = true → entryLE e e') ∧
    wildcardCount "**/*.sql" = 3 ∧
    wildcardCount "reports/*.sql" = 1 ∧
    entryAccepts ⟨"star", "**/*.sql", 3, 8⟩ "reports/x.sql" = true ∧
    entryAccepts ⟨"rep", "reports/*.sql", 1, 13⟩ "reports/x.sql" = true ∧
    (∀ g q, isGlobPattern g = false →
      (toMatcher g q = true ↔ normalize g = q)) ∧
    findInjectableForPath c5Coll (some "reports/x.sql") = some c5Reports := by
  refine ⟨?_, by decide, by decide, by decide, by decide, ?_, ?_⟩
  · revert hfind
    simp only [findInjectableForPath, hp, if_false]
    rcases hh : List.insertionSort entryLE
        (coll.index.filter (fun c => entryAccepts c (normalize p))) with _ | ⟨c, rest⟩
    · intro h
      exact absurd h (by simp)
    · intro h
      have hsorted := List.sorted_insertionSort entryLE
        (coll.index.filter (fun c => entryAccepts c (normalize p)))
      rw [hh] at hsorted
      have hperm := List.perm_insertionSort entryLE
        (coll.index.filter (fun c => entryAccepts c (normalize p)))
      rw [hh] at hperm
      have hcmem : c ∈ coll.index.filter (fun c => entryAccepts c (normalize p)) :=
        hperm.subset (List.mem_cons_self c rest)
      rw [List.mem_filter] at hcmem
      refine ⟨c, hcmem.1, hcmem.2, h, ?_⟩
      intro e' he' hacc
      have he'mem : e' ∈ c :: rest := hperm.symm.subset
        (List.mem_filter.mpr ⟨he', hacc⟩)
      rcases List.mem_cons.mp he'mem with rfl | htl
      · exact entryLE_refl e'
      · exact List.rel_of_sorted_cons hsorted e' htl
  · intro g q hg
    simp [toMatcher, hg]
  · rfl

/-- Witness for C5: the two-glob scenario, with its optimal entry. -/
theorem C5_findInjectable_most_specific_witness :
    findInjectableForPath c5Coll (some "reports/x.sql") = some c5Reports ∧
    (∃ e, e ∈ c5Coll.index ∧ entryAccepts e (normalize "reports/x.sql") = true ∧
      List.lookup e.identity c5Coll.catalog = some c5Reports ∧
      ∀ e' ∈ c5Coll.index,
        entryAccepts e' (normalize "reports/x.sql") = true → entryLE e e') := by
  have h := C5_findInjectable_most_specific c5Coll "reports/x.sql" c5Reports
    (by decide) rfl
  exact ⟨h.2.2.2.2.2.2, h.1⟩

/-- Looking up a key immediately after storing it yields the stored value,
whether the store overwrote an entry or appended a new one. -/
theorem lookup_assocSet_self {α : Type} :
    ∀ (l : List (String × α)) (k : String) (v : α),
      List.lookup k (assocSet l k v) = some v := by
  intro l k v
  induction l with
  | nil => simp [assocSet, List.lookup]
  | cons p t ih =>
    by_cases hp : p.1 = k
    · have hany : (p :: t).any (fun q => q.1 = k) = true := by
        simp [List.any_cons, hp]
      simp only [assocSet, hany, if_true, List.map_cons, hp, if_pos]
      simp [List.lookup]
    · by_cases ht : t.any (fun q => q.1 = k) = true
      · have hany : (p :: t).any (fun q => q.1 = k) = true := by
          simp [List.any_cons, ht]
        simp only [assocSet, hany, if_true, List.map_cons, hp, if_neg, if_false]
        rw [List.lookup]
        have hbeq : (k == p.1) = false := by
          simp [hp]
          intro hk
          exact absurd hk.symm hp
        rw [hbeq]
        have := ih
        simp only [assocSet, ht, if_true] at this
        exact this
      · have ht' : t.any (fun q => q.1 = k) = false := by
          rw [Bool.eq_false_iff]
          exact ht
        have hany : (p :: t).any (fun q => q.1 = k) = false := by
          simp only [List.any_cons, ht', Bool.or_false]
          simp [hp]
        simp only [assocSet, hany, Bool.false_eq_true, if_false, List.cons_append]
        rw [List.lookup]
        have hbeq : (k == p.1) = false := by
          simp
          intro hk
          exact absurd hk.symm hp
        rw [hbeq]
        have := ih
        simp only [assocSet, ht, Bool.false_eq_true, if_false] at this
        exact this

/-- Number of trailing newline characters of a string. -/
def trailingNewlines (s : String) : Nat :=
  (s.data.reverse.takeWhile (fun c => c = '\n')).length

/-- Taking with a predicate right after dropping with it yields nothing. -/
theorem takeWhile_dropWhile_nil {p : Char → Bool} :
    ∀ l : List Char, ((l.dropWhile p).takeWhile p) = [] := by
  intro l
  induction l with
  | nil => rfl
  | cons c t ih =>
    by_cases hc : p c = true
    · simpa [List.dropWhile_cons, hc] using ih
    · simp [List.dropWhile_cons, hc, List.takeWhile_cons]

/-- `ensureTrailingNewline` leaves exactly one trailing newline. -/
theorem trailingNewlines_ensure (s : String) :
    trailingNewlines (ensureTrailingNewline s) = 1 := by
  unfold trailingNewlines ensureTrailingNewline
  simp only [List.reverse_append, List.reverse_cons, List.reverse_nil,
    List.nil_append, List.reverse_reverse, List.singleton_append,
    List.takeWhile_cons]
  simp [takeWhile_dropWhile_nil]

/-- C8: under the default `onCapture`, a memory spec stores the prepared
`Captured` adapter in the history under its key (overwriting any prior
entry, so a later `captured[key].text()` read resolves to the captured
output) and leaves the filesystem untouched; a relative-path spec writes
the captured text with exactly one trailing newline to that path and leaves
the history untouched; and when `isCapturable` denies, `capture` changes
nothing. -/
theorem C8_capture_default_behavior {Ctx Op : Type}
    (isCap : Ctx → Op → Option (List CaptureSpec))
    (prep : Op → Ctx → Captured) (ctx : Ctx) (op : Op) (st : CaptureState) :
    (∀ k, isCap ctx op = some [.memory k] →
      (captureRun isCap prep typicalOnCapture ctx op st).history =
        assocSet st.history k (prep op ctx) ∧
      capturedText (captureRun isCap prep typicalOnCapture ctx op st) k =
        some (prep op ctx).text ∧
      (captureRun isCap prep typicalOnCapture ctx op st).fs = st.fs) ∧
    (∀ pth g, isCap ctx op = some [.relFsPath pth g] →
      (captureRun isCap prep typicalOnCapture ctx op st).fs =
        assocSet st.fs pth (ensureTrailingNewline (prep op ctx).text) ∧
      List.lookup pth (captureRun isCap prep typicalOnCapture ctx op st).fs =
        some (ensureTrailingNewline (prep op ctx).text) ∧
      (captureRun isCap prep typicalOnCapture ctx op st).history = st.history) ∧
    (isCap ctx op = none →
      captureRun isCap prep typicalOnCapture ctx op st = st) ∧
    (∀ s, trailingNewlines (ensureTrailingNewline s) = 1) := by
  refine ⟨?_, ?_, ?_, trailingNewlines_ensure⟩
  · intro k hk
    simp [captureRun, hk, typicalOnCapture, capturedText, lookup_assocSet_self]
  · intro pth g hk
    simp [captureRun, hk, typicalOnCapture, lookup_assocSet_self]
  · intro hk
    simp [captureRun, hk]

/-- Witness for C8: capturing stdout under memory key `step1` makes
`captured["step1"].text()` resolve to it. -/
theorem C8_capture_default_behavior_witness :
    capturedText
      (captureRun (fun (_ : Unit) (_ : Unit) => some [.memory "step1"])
        (fun _ _ => ⟨"stdout of step1"⟩) typicalOnCapture () ()
        ⟨[("step1", ⟨"old"⟩)], []⟩) "step1" = some "stdout of step1" :=
  ((C8_capture_default_behavior (fun _ _ => some [.memory "step1"])
    (fun _ _ => ⟨"stdout of step1"⟩) () () ⟨[("step1", ⟨"old"⟩)], []⟩).1
    "step1" rfl).2.1

/-- The sorted signature of the cache key only depends on the multiset of
local names: permuting them at call time leaves it unchanged. -/
theorem sigOf_perm {k₁ k₂ : List String} (h : List.Perm k₁ k₂) :
    sigOf k₁ = sigOf k₂ := by
  unfold sigOf
  congr 1
  refine List.eq_of_perm_of_sorted ?_ (List.sorted_insertionSort _ _)
    (List.sorted_insertionSort _ _)
  exact ((List.perm_insertionSort _ _).trans h).trans
    (List.perm_insertionSort _ _).symm

/-- Association-list lookup is invariant under permutation when the keys are
distinct. -/
theorem lookup_perm {α : Type} {l₁ l₂ : List (String × α)}
    (h : List.Perm l₁ l₂) (hnd : (l₁.map Prod.fst).Nodup) (k : String) :
    List.lookup k l₁ = List.lookup k l₂ := by
  induction h with
  | nil => rfl
  | cons x h ih =>
    rw [List.lookup, List.lookup]
    cases hx : k == x.1 with
    | true => rfl
    | false =>
      exact ih (by simpa using (List.nodup_cons.mp (by simpa using hnd)).2)
  | swap x y l =>
    have hxy : y.1 ≠ x.1 := by
      have h' := hnd
      simp only [List.map_cons, List.nodup_cons, List.mem_cons] at h'
      intro hcontra
      exact h'.1 (Or.inl hcontra)
    rw [List.lookup, List.lookup]
    cases hky : k == y.1 with
    | true =>
      have hkx : (k == x.1) = false := by
        have hk : k = y.1 := eq_of_beq hky
        subst hk
        simpa using hxy
      rw [List.lookup, hkx, List.lookup, hky]
    | false =>
      cases hkx : k == x.1 with
      | true => rw [List.lookup, hkx]
      | false => rw [List.lookup, hkx, List.lookup, hky]
  | trans h₁ h₂ ih₁ ih₂ =>
    exact (ih₁ hnd).trans (ih₂ ((h₁.map Prod.fst).nodup hnd))

/-- The compiled scope only reads the locals through lookups, so a
permutation of a duplicate-free locals object renders identically. -/
theorem runCompiled_perm (ctxName : String) (evalE : ExprOracle)
    (ctxVal : JsVal) (fn : CompiledTpl) {l₁ l₂ : Locals}
    (h : List.Perm l₁ l₂) (hnd : (l₁.map Prod.fst).Nodup) :
    runCompiled ctxName evalE ctxVal fn l₂ = runCompiled ctxName evalE ctxVal fn l₁ := by
  unfold runCompiled
  have henv : envOf ctxName ctxVal fn.keys l₂ = envOf ctxName ctxVal fn.keys l₁ := by
    funext name
    unfold envOf localsGet
    rw [lookup_perm h hnd name]
  rw [henv]

/-- C7: for a fixed template and context binding, two locals objects with
the same key/value bindings in different orders produce the same
sorted-signature cache key; calling the cached `interpolate` with the first
and then with the second makes the second call a pure cache hit (it adds no
entry and runs the same cached renderer) and yields the identical output. -/
theorem C7_cache_order_independence (cfg : InterpConfig) (evalE : ExprOracle)
    (ctxVal : JsVal) (cache : Cache) (t : String) (l₁ l₂ : Locals)
    (stack : Option (List Frame))
    (hperm : List.Perm l₁ l₂)
    (hnd : (l₁.map Prod.fst).Nodup)
    (hcache : cfg.useCache = true)
    (hkeys : keysOK cfg.ctxName (localKeys l₁) = true) :
    sigOf (localKeys l₁) = sigOf (localKeys l₂) ∧
    (interpolateC cfg evalE ctxVal
        (interpolateC cfg evalE ctxVal cache t l₁ stack).2 t l₂ stack).1 =
      (interpolateC cfg evalE ctxVal cache t l₁ stack).1 ∧
    (interpolateC cfg evalE ctxVal
        (interpolateC cfg evalE ctxVal cache t l₁ stack).2 t l₂ stack).2 =
      (interpolateC cfg evalE ctxVal cache t l₁ stack).2 := by
  have hkperm : List.Perm (localKeys l₁) (localKeys l₂) := hperm.map Prod.fst
  have hsig : sigOf (localKeys l₁) = sigOf (localKeys l₂) := sigOf_perm hkperm
  have hcore : (interpolateCore cfg evalE ctxVal
      (interpolateCore cfg evalE ctxVal cache t l₁).2 t l₂).1 =
        (interpolateCore cfg evalE ctxVal cache t l₁).1 ∧
      (interpolateCore cfg evalE ctxVal
        (interpolateCore cfg evalE ctxVal cache t l₁).2 t l₂).2 =
        (interpolateCore cfg evalE ctxVal cache t l₁).2 := by
    unfold interpolateCore
    rw [hcache]
    simp only [Bool.true_eq_false, if_false, ← hsig]
    rcases hlk : List.lookup (t, cfg.ctxName, sigOf (localKeys l₁)) cache with _ | fn
    · rw [compile_of_keysOK hkeys]
      simp only []
      rw [List.lookup, BEq.refl]
      exact ⟨runCompiled_perm cfg.ctxName evalE ctxVal _ hperm hnd, rfl⟩
    · simp only []
      rw [hlk]
      exact ⟨runCompiled_perm cfg.ctxName evalE ctxVal fn hperm hnd, rfl⟩
  rcases stack with _ | st
  · exact ⟨hsig, hcore.1, hcore.2⟩
  · by_cases hlen : cfg.recursionLimit < st.length
    · refine ⟨hsig, ?_, ?_⟩ <;> simp [interpolateC, hlen]
    · simp only [interpolateC, hlen, if_false]
      exact ⟨hsig, hcore.1, hcore.2⟩

/-- Witness for C7 at two concrete permuted locals objects. -/
theorem C7_cache_order_independence_witness :
    (interpolateC {} (fun _ _ => .ok .undef) (.other "ctx")
        (interpolateC {} (fun _ _ => .ok .undef) (.other "ctx") [] "t"
          [("a", .str "1"), ("b", .str "2")] none).2 "t"
        [("b", .str "2"), ("a", .str "1")] none).1 =
      (interpolateC {} (fun _ _ => .ok .undef) (.other "ctx") [] "t"
        [("a", .str "1"), ("b", .str "2")] none).1 :=
  (C7_cache_order_independence {} (fun _ _ => .ok .undef) (.other "ctx") [] "t"
    [("a", .str "1"), ("b", .str "2")] [("b", .str "2"), ("a", .str "1")] none
    (by decide) (by decide) rfl (by decide)).2.1

/-- The expression spans of a template, in order. -/
def exprSpans (src : String) : List (List Char) :=
  (splitTemplateIntoParts src).filterMap (fun p =>
    match p with
    | .expr e => some e
    | .lit _ => none)

/-- Restricted compilation succeeds on parts whose expressions all parse. -/
theorem compileRestrictedParts_ok :
    ∀ ps : List TplPart,
      (∀ e, TplPart.expr e ∈ ps → (parseRestricted e).isSome = true) →
      ∃ rs, compileRestrictedParts ps = .ok rs := by
  intro ps
  induction ps with
  | nil => intro _; exact ⟨[], rfl⟩
  | cons p t ih =>
    intro h
    cases p with
    | lit v =>
      obtain ⟨rs, hrs⟩ := ih (fun e he => h e (List.mem_cons_of_mem _ he))
      refine ⟨RPart.lit v :: rs, ?_⟩
      rw [compileRestrictedParts, hrs]
      rfl
    | expr e =>
      have hsome := h e (List.mem_cons_self _ _)
      rcases hp : parseRestricted e with _ | re
      · rw [hp] at hsome
        simp at hsome
      · obtain ⟨rs, hrs⟩ := ih (fun e' he' => h e' (List.mem_cons_of_mem _ he'))
        refine ⟨RPart.expr re :: rs, ?_⟩
        rw [compileRestrictedParts, hp, hrs]
        rfl

/-- A restricted compile error names an expression of the template that the
restricted grammar rejects. -/
theorem compileRestrictedParts_err :
    ∀ (ps : List TplPart) (msg : String), compileRestrictedParts ps = .error msg →
      ∃ e, TplPart.expr e ∈ ps ∧ parseRestricted e = none ∧ msg = restrictedErrMsg e := by
  intro ps
  induction ps with
  | nil =>
    intro msg h
    exact absurd h (by simp [compileRestrictedParts])
  | cons p t ih =>
    intro msg h
    cases p with
    | lit v =>
      rw [compileRestrictedParts] at h
      rcases ht : compileRestrictedParts t with msg' | rs
      · rw [ht] at h
        simp only [Except.map] at h
        obtain ⟨e', he', hpe, hmsg⟩ := ih msg' ht
        rcases h with ⟨hmm⟩
        exact ⟨e', List.mem_cons_of_mem _ he', hpe, hmsg⟩
      · rw [ht] at h
        exact absurd h (by simp [Except.map])
    | expr e =>
      rw [compileRestrictedParts] at h
      rcases hp : parseRestricted e with _ | re
      · rw [hp] at h
        simp only [Except.error.injEq] at h
        exact ⟨e, List.mem_cons_self _ _, hp, h.symm⟩
      · rw [hp] at h
        rcases ht : compileRestrictedParts t with msg' | rs
        · rw [ht] at h
          simp only [Except.map] at h
          obtain ⟨e', he', hpe, hmsg⟩ := ih msg' ht
          rcases h with ⟨hmm⟩
          exact ⟨e', List.mem_cons_of_mem _ he', hpe, hmsg⟩
        · rw [ht] at h
          exact absurd h (by simp [Except.map])

/-- C9 (spec-modelled: `lib/interpolate/safe.ts` is not under `src/`): the
restricted engine presents the same external contract as the trusted one —
an `interpolateUnsafely`-shaped entry returning the same `mutated` /
`unmodified` / `false` statuses over the same `${...}` scanner — but its
compiler accepts only `identifierPath` lookups and `partial('name',
locals?)` calls: templates whose expressions all belong to that grammar
compile, and any other expression content fails compilation with a
descriptive error naming the offending expression. -/
theorem C9_restricted_engine_contract :
    (∀ src : String,
      (∀ e ∈ exprSpans src, (parseRestricted e).isSome = true) →
      ∃ rs, compileRestricted src = .ok rs) ∧
    (∀ (src msg : String), compileRestricted src = .error msg →
      ∃ e ∈ exprSpans src, parseRestricted e = none ∧ msg = restrictedErrMsg e) ∧
    (∀ (evalL : List String → JsVal)
      (pe : String → Option (List Char) → Except JsErr String) (prime : PrimeCtx),
      (prime.interpolate ≠ some true →
        interpolateSafelyVia evalL pe prime = .unmodified prime.source) ∧
      (∀ msg, prime.interpolate = some true →
        compileRestricted prime.source = .error msg →
        interpolateSafelyVia evalL pe prime = .failed ⟨msg⟩ prime.source) ∧
      (∀ rs err, prime.interpolate = some true →
        compileRestricted prime.source = .ok rs →
        renderRestricted evalL pe rs = .error err →
        interpolateSafelyVia evalL pe prime = .failed err prime.source) ∧
      (∀ rs out, prime.interpolate = some true →
        compileRestricted prime.source = .ok rs →
        renderRestricted evalL pe rs = .ok out →
        (out = prime.source →
          interpolateSafelyVia evalL pe prime = .unmodified prime.source) ∧
        (out ≠ prime.source →
          interpolateSafelyVia evalL pe prime = .mutated (.str out)))) := by
  refine ⟨?_, ?_, ?_⟩
  · intro src h
    refine compileRestrictedParts_ok _ (fun e he => h e ?_)
    unfold exprSpans
    rw [List.mem_filterMap]
    exact ⟨TplPart.expr e, he, rfl⟩
  · intro src msg h
    obtain ⟨e, he, hpe, hmsg⟩ := compileRestrictedParts_err _ msg h
    refine ⟨e, ?_, hpe, hmsg⟩
    unfold exprSpans
    rw [List.mem_filterMap]
    exact ⟨TplPart.expr e, he, rfl⟩
  · intro evalL pe prime
    refine ⟨?_, ?_, ?_, ?_⟩
    · intro h
      simp [interpolateSafelyVia, h]
    · intro msg hflag hc
      simp [interpolateSafelyVia, hflag, hc]
    · intro rs err hflag hc hr
      simp [interpolateSafelyVia, hflag, hc, hr]
    · intro rs out hflag hc hr
      constructor
      · intro hout
        simp [interpolateSafelyVia, hflag, hc, hr, hout]
      · intro hout
        simp [interpolateSafelyVia, hflag, hc, hr, hout]

/-- Witness for C9: an arithmetic expression is rejected by the restricted
compiler with the descriptive error naming it. -/
theorem C9_restricted_engine_contract_witness :
    ∃ e ∈ exprSpans "$\x7b1+2\x7d",
      parseRestricted e = none ∧
        restrictedErrMsg "1+2".data = restrictedErrMsg e :=
  C9_restricted_engine_contract.2.1 "$\x7b1+2\x7d"
    (restrictedErrMsg "1+2".data) rfl

end Spry
